import Mathlib

/-!
Shallow embedding of the `nats_sidecar` core (subscription manager, event
bridge, lease-key codec, worker loop step) and proofs of the specification
claims about it.

Conventions of the embedding:
* C++ `std::unordered_map` / `std::unordered_set` become association lists
  (`List (k × v)`) and duplicate-free lists, with lookup returning the first
  match; iteration order is the list order.
* The external expression engine (`atree::Tree`) is not in the repository;
  a snapshot records the exact `(id, expression)` insertions performed while
  building the tree, and tree construction fails (the C++ `atree::Error`
  exception from `insert`) exactly when some inserted expression is rejected
  by the engine, modelled by a boolean validity oracle `valid : String → Bool`.
* Machine integers (`uint64_t`) are `Nat`; where overflow matters
  (`std::from_chars` on `uint64_t`) the bound `2^64` is explicit.
-/

namespace NatsSidecar

/-- `sidecar::attribute_type` (config.hpp). -/
inductive AttrType where
  | boolean
  | integer
  | float_val
  | string
  | string_list
  | integer_list
deriving DecidableEq, Repr

/-- `sidecar::attribute_def` (config.hpp): name plus declared type. -/
structure AttrDef where
  name : String
  type : AttrType
deriving DecidableEq, Repr

/-! ## Decimal numerals

`std::to_string(uint64_t)` and the digit parsing done by `std::from_chars`
(lease_manager.cpp). -/

/-- Value of a decimal digit character (`c - '0'`). -/
def digitVal (c : Char) : Nat := c.toNat - 48

/-- Value of a digit string read left to right, as `std::from_chars` does. -/
def digitsToNat (ds : List Char) : Nat :=
  ds.foldl (fun acc c => 10 * acc + digitVal c) 0

/-- Decimal representation of a `Nat`, most significant digit first:
the embedding of `std::to_string` on an unsigned integer. -/
def natToDecimal (n : Nat) : List Char :=
  if h : n < 10 then [Nat.digitChar n]
  else natToDecimal (n / 10) ++ [Nat.digitChar (n % 10)]
decreasing_by
  exact Nat.div_lt_self (Nat.lt_of_lt_of_le (by decide) (Nat.le_of_not_lt h)) (by decide)

theorem digitVal_digitChar {d : Nat} (h : d < 10) :
    digitVal (Nat.digitChar d) = d := by
  interval_cases d <;> decide

theorem isDigit_digitChar {d : Nat} (h : d < 10) :
    (Nat.digitChar d).isDigit = true := by
  interval_cases d <;> decide

theorem digitChar_ne_dot {d : Nat} (h : d < 10) :
    Nat.digitChar d ≠ '.' := by
  interval_cases d <;> decide

theorem digitsToNat_append_digit (a : List Char) (c : Char) :
    digitsToNat (a ++ [c]) = 10 * digitsToNat a + digitVal c := by
  simp [digitsToNat, List.foldl_append]

theorem natToDecimal_ne_nil (n : Nat) : natToDecimal n ≠ [] := by
  rw [natToDecimal]
  split <;> simp

theorem mem_natToDecimal_isDigit (n : Nat) :
    ∀ c ∈ natToDecimal n, c.isDigit = true := by
  induction n using Nat.strong_induction_on with
  | _ n ih =>
    rw [natToDecimal]
    split
    · intro c hc
      simp only [List.mem_singleton] at hc
      subst hc
      exact isDigit_digitChar (by omega)
    · intro c hc
      rcases List.mem_append.mp hc with h | h
      · exact ih (n / 10) (Nat.div_lt_self (by omega) (by decide)) c h
      · simp only [List.mem_singleton] at h
        subst h
        exact isDigit_digitChar (Nat.mod_lt _ (by decide))

theorem digitsToNat_natToDecimal (n : Nat) :
    digitsToNat (natToDecimal n) = n := by
  induction n using Nat.strong_induction_on with
  | _ n ih =>
    rw [natToDecimal]
    split
    · simp [digitsToNat, digitVal_digitChar, *]
    · rw [digitsToNat_append_digit,
        ih (n / 10) (Nat.div_lt_self (by omega) (by decide)),
        digitVal_digitChar (Nat.mod_lt _ (by decide))]
      omega

theorem isDigit_ne_dot {c : Char} (h : c.isDigit = true) : c ≠ '.' := by
  intro hc
  subst hc
  simp [Char.isDigit] at h

/-! ## Lease keys (lease_manager.cpp) -/

/-- `lease_manager::make_lease_key`: `std::to_string(id) + "." + client_id`. -/
def make_lease_key (subscription_id : Nat) (client_id : String) : String :=
  String.mk (natToDecimal subscription_id ++ '.' :: client_id.data)

/-- `std::from_chars` applied to the pre-dot substring for a `uint64_t`:
consumes the maximal leading run of decimal digits; the error code is clear
iff at least one digit was consumed and the value fits in 64 bits.  The
"first unconsumed character" pointer is computed by `from_chars` but never
examined by `parse_lease_key`. -/
def fromCharsU64 (cs : List Char) : Option Nat :=
  let ds := cs.takeWhile Char.isDigit
  if ds.isEmpty then none
  else if digitsToNat ds < 2 ^ 64 then some (digitsToNat ds) else none

/-- `lease_manager::parse_lease_key`: split at the first `'.'`; reject keys
with no dot, a leading dot, or a trailing dot; parse the pre-dot part with
`std::from_chars`. -/
def parse_lease_key (key : String) : Option (Nat × String) :=
  let cs := key.data
  let pre := cs.takeWhile (fun c => c ≠ '.')
  if pre.length = cs.length then none
  else if pre.length = 0 then none
  else if pre.length + 1 = cs.length then none
  else match fromCharsU64 pre with
       | none => none
       | some id => some (id, String.mk (cs.drop (pre.length + 1)))

theorem takeWhile_append_all {p : Char → Bool} {a b : List Char}
    (h : ∀ x ∈ a, p x = true) :
    (a ++ b).takeWhile p = a ++ b.takeWhile p := by
  induction a with
  | nil => simp
  | cons x xs ih =>
    have hx : p x = true := h x (by simp)
    simp only [List.cons_append, List.takeWhile_cons, hx, if_true]
    rw [ih (fun y hy => h y (by simp [hy]))]

theorem takeWhile_all {p : Char → Bool} {a : List Char}
    (h : ∀ x ∈ a, p x = true) : a.takeWhile p = a := by
  have := takeWhile_append_all (b := []) h
  simpa using this

theorem drop_append_cons (a b : List Char) (x : Char) :
    (a ++ x :: b).drop (a.length + 1) = b := by
  induction a with
  | nil => simp
  | cons y ys ih => simpa using ih

/-- On a key of shape `pre ++ "." ++ c` whose pre-dot part contains no dot
and with both sides of the first dot non-empty, `parse_lease_key` reduces to
`from_chars` on the pre-dot part. -/
theorem parse_lease_key_split {pre c : List Char}
    (hnd : ∀ x ∈ pre, x ≠ '.') (hne : pre ≠ []) (hc : c ≠ []) :
    parse_lease_key (String.mk (pre ++ '.' :: c)) =
      match fromCharsU64 pre with
      | none => none
      | some id => some (id, String.mk c) := by
  have htake : (pre ++ '.' :: c).takeWhile (fun x => x ≠ '.') = pre := by
    rw [takeWhile_append_all (fun x hx => by simpa using hnd x hx)]
    simp
  have hlen : pre.length ≠ (pre ++ '.' :: c).length := by
    simp
  have hlen0 : pre.length ≠ 0 := by
    simpa using hne
  have hlen1 : pre.length + 1 ≠ (pre ++ '.' :: c).length := by
    have hcl : c.length ≠ 0 := by simpa using hc
    simp only [List.length_append, List.length_cons]
    omega
  simp only [parse_lease_key, htake, if_neg hlen, if_neg hlen0, if_neg hlen1,
    drop_append_cons]

theorem fromCharsU64_digits {ds : List Char}
    (hd : ∀ x ∈ ds, x.isDigit = true) (hne : ds ≠ [])
    (hlt : digitsToNat ds < 2 ^ 64) :
    fromCharsU64 ds = some (digitsToNat ds) := by
  simp only [fromCharsU64, takeWhile_all hd]
  rw [if_neg (by simpa using hne), if_pos hlt]

theorem parse_make_lease_key {id : Nat} {c : String}
    (hid : id < 2 ^ 64) (hc : c ≠ "") :
    parse_lease_key (make_lease_key id c) = some (id, c) := by
  have hcd : c.data ≠ [] := by
    intro h
    apply hc
    cases c with
    | mk d =>
      simp only [String.data] at h
      subst h
      rfl
  rw [make_lease_key, parse_lease_key_split
    (fun x hx => isDigit_ne_dot (mem_natToDecimal_isDigit id x hx))
    (natToDecimal_ne_nil id) hcd]
  rw [fromCharsU64_digits (mem_natToDecimal_isDigit id) (natToDecimal_ne_nil id)
    (by rwa [digitsToNat_natToDecimal])]
  rw [digitsToNat_natToDecimal]

/-- When the pre-dot part is a non-empty digit run followed by junk (first
junk character not a digit, no dot before the real dot), `from_chars` stops
at the junk with a clear error code and `parse_lease_key` accepts. -/
theorem parse_lease_key_digit_junk {ds : List Char} {r : Char} {rest c : List Char}
    (hds : ∀ x ∈ ds, x.isDigit = true) (hne : ds ≠ [])
    (hr : r.isDigit = false) (hrd : r ≠ '.')
    (hrest : ∀ x ∈ rest, x ≠ '.') (hc : c ≠ [])
    (hlt : digitsToNat ds < 2 ^ 64) :
    parse_lease_key (String.mk (ds ++ r :: rest ++ '.' :: c)) =
      some (digitsToNat ds, String.mk c) := by
  have hsplit : ds ++ r :: rest ++ '.' :: c = (ds ++ r :: rest) ++ '.' :: c := by
    simp
  have hnd : ∀ x ∈ ds ++ r :: rest, x ≠ '.' := by
    intro x hx
    rcases List.mem_append.mp hx with h | h
    · exact isDigit_ne_dot (hds x h)
    · rcases List.mem_cons.mp h with h | h
      · exact h ▸ hrd
      · exact hrest x h
  rw [hsplit, parse_lease_key_split hnd (by simp) hc]
  have htake : (ds ++ r :: rest).takeWhile Char.isDigit = ds := by
    rw [takeWhile_append_all hds]
    simp [List.takeWhile_cons, hr]
  simp only [fromCharsU64, htake]
  rw [if_neg (by simpa using hne), if_pos hlt]

/-- **C7.** `parse_lease_key ∘ make_lease_key` is the identity for every
64-bit id and non-empty client id (the split being taken at the first dot,
client ids containing dots included), and the five malformed keys are
rejected. -/
theorem claim_C7_lease_key_roundtrip :
    (∀ (id : Nat) (c : String), id < 2 ^ 64 → c ≠ "" →
      parse_lease_key (make_lease_key id c) = some (id, c)) ∧
    parse_lease_key "" = none ∧
    parse_lease_key "noperiod" = none ∧
    parse_lease_key ".leading" = none ∧
    parse_lease_key "trailing." = none ∧
    parse_lease_key "notanumber.client" = none := by
  refine ⟨fun id c hid hc => parse_make_lease_key hid hc, ?_, ?_, ?_, ?_, ?_⟩ <;> rfl

/-- Witness for C7 at a concrete input. -/
theorem claim_C7_lease_key_roundtrip_witness :
    parse_lease_key (make_lease_key 42 "client-x.y") = some (42, "client-x.y") :=
  claim_C7_lease_key_roundtrip.1 42 "client-x.y" (by norm_num) (by decide)

/-- **C9.** `parse_lease_key` accepts keys whose pre-dot part is a digit run
followed by non-digit junk, returning the leading digits' value as the id
and everything after the first dot as the client: full consumption of the
pre-dot part is never checked, only the `from_chars` error code. -/
theorem claim_C9_lease_key_junk_accepted :
    parse_lease_key "12a.client" = some (12, "client") ∧
    (∀ (ds : List Char) (r : Char) (rest c : List Char),
      (∀ x ∈ ds, x.isDigit = true) → ds ≠ [] →
      r.isDigit = false → r ≠ '.' →
      (∀ x ∈ rest, x ≠ '.') → c ≠ [] →
      digitsToNat ds < 2 ^ 64 →
      parse_lease_key (String.mk (ds ++ r :: rest ++ '.' :: c)) =
        some (digitsToNat ds, String.mk c)) := by
  exact ⟨by rfl, fun ds r rest c h1 h2 h3 h4 h5 h6 h7 =>
    parse_lease_key_digit_junk h1 h2 h3 h4 h5 h6 h7⟩

/-- Witness for C9 at a concrete input. -/
theorem claim_C9_lease_key_junk_accepted_witness :
    parse_lease_key (String.mk (['1', '2'] ++ 'a' :: ['b'] ++ '.' :: ['c'])) =
      some (digitsToNat ['1', '2'], String.mk ['c']) :=
  claim_C9_lease_key_junk_accepted.2 ['1', '2'] 'a' ['b'] ['c']
    (by decide) (by decide) (by decide) (by decide) (by decide) (by decide)
    (by decide)

/-! ## Finite maps and sets

`std::unordered_map` as an association list (first match wins, iteration in
list order) and `std::unordered_set<std::string>` as a duplicate-free list. -/

/-- `unordered_map::find`. -/
def mapLookup {α β : Type} [DecidableEq α] (l : List (α × β)) (k : α) : Option β :=
  match l with
  | [] => none
  | (k', v) :: rest => if k' = k then some v else mapLookup rest k

/-- `unordered_map::operator[] = v`: overwrite an existing entry in place,
otherwise add a new one. -/
def mapInsert {α β : Type} [DecidableEq α] (l : List (α × β)) (k : α) (v : β) :
    List (α × β) :=
  if (mapLookup l k).isSome then l.map (fun p => if p.1 = k then (k, v) else p)
  else (k, v) :: l

/-- `unordered_map::erase(key)`. -/
def mapErase {α β : Type} [DecidableEq α] (l : List (α × β)) (k : α) : List (α × β) :=
  l.filter (fun p => p.1 ≠ k)

/-- `unordered_set<string>::insert`. -/
def setInsert (x : String) (s : List String) : List String :=
  if x ∈ s then s else x :: s

/-- `unordered_set<string>::erase(value)`. -/
def setErase (x : String) (s : List String) : List String :=
  s.filter (fun y => y ≠ x)

/-! ## Subscription manager (subscription_manager.{hpp,cpp})

The expression engine is external; `valid : String → Bool` is the oracle for
which expression texts `atree::Tree::insert` accepts.  A failing insert is the
C++ `atree::Error` exception, modelled as `Except.error ()`. -/

/-- `sidecar::subscription_info`. -/
structure SubInfo where
  id : Nat
  expression : String
  lease_holders : List String
deriving DecidableEq, Repr

/-- `sidecar::tree_snapshot`.  The compiled tree is opaque; `treeInserts`
records the exact `(id, expression)` insert calls made while building it
(subscription_manager.cpp, `publish_snapshot`). -/
structure TreeSnapshot where
  treeInserts : List (Nat × String)
  output_subjects : List (Nat × String)
  active_count : Nat
deriving DecidableEq, Repr

/-- Writer state of `sidecar::subscription_manager` plus the snapshot slot
(`m_snapshot`, a shared pointer that is null only before the constructor's
initial `publish_snapshot`). -/
structure ManagerState where
  attributes : List AttrDef
  output_pfx : String
  next_id : Nat
  expr_to_id : List (String × Nat)
  subscriptions : List (Nat × SubInfo)
  snap : Option TreeSnapshot
deriving DecidableEq, Repr

/-- `m_output_prefix + "." + std::to_string(id)`. -/
def output_subject (pfx : String) (id : Nat) : String :=
  pfx ++ "." ++ String.mk (natToDecimal id)

/-- The snapshot `publish_snapshot` composes from the current writer state:
insert every current `(id, expression)` into a fresh tree, precompute the
output subject of every current id, record the active count. -/
def buildSnapshot (s : ManagerState) : TreeSnapshot :=
  { treeInserts := s.subscriptions.map (fun p => (p.1, p.2.expression)),
    output_subjects := s.subscriptions.map (fun p => (p.1, output_subject s.output_pfx p.1)),
    active_count := s.subscriptions.length }

/-- Whether rebuilding the tree succeeds: every inserted expression must be
accepted by the expression engine. -/
def treeAccepts (valid : String → Bool) (s : ManagerState) : Bool :=
  s.subscriptions.all (fun p => valid p.2.expression)

/-- `subscription_manager::publish_snapshot`: rebuild the tree from scratch
and atomically store the new snapshot; throws if some insert is rejected. -/
def publish_snapshot (valid : String → Bool) (s : ManagerState) :
    Except Unit ManagerState :=
  if treeAccepts valid s then .ok { s with snap := some (buildSnapshot s) }
  else .error ()

/-- The writer state the constructor starts from (`m_next_id = 1`, empty
maps, null snapshot slot). -/
def initialState (attributes : List AttrDef) (pfx : String) : ManagerState :=
  { attributes := attributes, output_pfx := pfx, next_id := 1,
    expr_to_id := [], subscriptions := [], snap := none }

/-- `subscription_manager::subscription_manager`: store the configuration and
publish an initial empty snapshot. -/
def mkManager (attributes : List AttrDef) (pfx : String) : ManagerState :=
  { initialState attributes pfx with
    snap := some (buildSnapshot (initialState attributes pfx)) }

/-- The constructor's body is exactly the initial `publish_snapshot`, which
cannot fail on an empty subscription set. -/
theorem mkManager_eq_publish (valid : String → Bool) (attributes : List AttrDef)
    (pfx : String) :
    publish_snapshot valid (initialState attributes pfx) =
      .ok (mkManager attributes pfx) := rfl

/-- In-place mutation of `m_subscriptions[id].lease_holders`. -/
def updateHolders (l : List (Nat × SubInfo)) (id : Nat)
    (f : List String → List String) : List (Nat × SubInfo) :=
  match l with
  | [] => []
  | (k, i) :: rest =>
      if k = id then (k, { i with lease_holders := f i.lease_holders }) :: updateHolders rest id f
      else (k, i) :: updateHolders rest id f

/-- The tentative writer state of `subscribe` on a new expression: take the
id `m_next_id++`, add the subscription with the caller as sole lease holder,
index the expression. -/
def subTentative (s : ManagerState) (expression client_id : String) : ManagerState :=
  { s with next_id := s.next_id + 1,
           subscriptions := mapInsert s.subscriptions s.next_id
             { id := s.next_id, expression := expression,
               lease_holders := setInsert client_id [] },
           expr_to_id := mapInsert s.expr_to_id expression s.next_id }

/-- The `catch` block of `subscribe`: erase the tentative entries and undo
the id increment. -/
def subRollback (s1 : ManagerState) (id : Nat) (expression : String) : ManagerState :=
  { s1 with subscriptions := mapErase s1.subscriptions id,
            expr_to_id := mapErase s1.expr_to_id expression,
            next_id := s1.next_id - 1 }

/-- `subscription_manager::subscribe`.  Returns the thrown error (and the
state after the `catch` block's rollback) or the new/existing id and the new
state. -/
def subscribe (valid : String → Bool) (s : ManagerState)
    (expression client_id : String) : Except Unit Nat × ManagerState :=
  match mapLookup s.expr_to_id expression with
  | some id =>
      (.ok id, { s with subscriptions := updateHolders s.subscriptions id (setInsert client_id) })
  | none =>
      let s1 := subTentative s expression client_id
      match publish_snapshot valid s1 with
      | .ok s2 => (.ok s.next_id, s2)
      | .error _ => (.error (), subRollback s1 s.next_id expression)

/-- Full deletion of a subscription from the writer maps. -/
def removeState (s : ManagerState) (subscription_id : Nat) (expression : String) :
    ManagerState :=
  { s with expr_to_id := mapErase s.expr_to_id expression,
           subscriptions := mapErase s.subscriptions subscription_id }

/-- `subscription_manager::remove_lease`. -/
def remove_lease (valid : String → Bool) (s : ManagerState)
    (subscription_id : Nat) (client_id : String) :
    Except Unit (Bool × ManagerState) :=
  match mapLookup s.subscriptions subscription_id with
  | none => .ok (false, s)
  | some info =>
      let holders := setErase client_id info.lease_holders
      if holders.isEmpty then
        match publish_snapshot valid (removeState s subscription_id info.expression) with
        | .ok s2 => .ok (true, s2)
        | .error e => .error e
      else
        .ok (false, { s with subscriptions := updateHolders s.subscriptions subscription_id (setErase client_id) })

/-- `subscription_manager::remove_subscription`. -/
def remove_subscription (valid : String → Bool) (s : ManagerState)
    (subscription_id : Nat) : Except Unit (Bool × ManagerState) :=
  match mapLookup s.subscriptions subscription_id with
  | none => .ok (false, s)
  | some info =>
      match publish_snapshot valid (removeState s subscription_id info.expression) with
      | .ok s2 => .ok (true, s2)
      | .error e => .error e

/-- `subscription_manager::get_subscription`. -/
def get_subscription (s : ManagerState) (id : Nat) : Option SubInfo :=
  mapLookup s.subscriptions id

/-- `subscription_manager::find_by_expression`. -/
def find_by_expression (s : ManagerState) (expression : String) : Option Nat :=
  mapLookup s.expr_to_id expression

/-- `subscription_manager::snapshot`: atomic load of the slot. -/
def snapshot (s : ManagerState) : Option TreeSnapshot := s.snap

/-- `subscription_manager::active_count`: dereferences the loaded snapshot
pointer; it is never null (C10), `0` stands for the impossible null case. -/
def active_count (s : ManagerState) : Nat :=
  match s.snap with
  | some sn => sn.active_count
  | none => 0

/-- Writer-state well-formedness maintained by the manager: every stored
expression is accepted by the engine, every stored id is below `m_next_id`,
and `m_expr_to_id` is consistent with `m_subscriptions`. -/
def WFb (valid : String → Bool) (s : ManagerState) : Bool :=
  s.subscriptions.all (fun p => valid p.2.expression) &&
  s.subscriptions.all (fun p => decide (p.1 < s.next_id)) &&
  s.expr_to_id.all (fun q =>
    match mapLookup s.subscriptions q.2 with
    | some info => info.expression == q.1
    | none => false)

/-- States reachable by the manager's public operations (exceptional
`remove_lease` / `remove_subscription` runs produce no state because the
error cannot occur on well-formed states; `subscribe` returns its rolled-back
state also on error). -/
inductive Reachable (valid : String → Bool) : ManagerState → Prop where
  | init (attributes : List AttrDef) (pfx : String) :
      Reachable valid (mkManager attributes pfx)
  | step_subscribe (s : ManagerState) (e c : String) :
      Reachable valid s → Reachable valid (subscribe valid s e c).2
  | step_remove_lease (s : ManagerState) (id : Nat) (c : String)
      (b : Bool) (s' : ManagerState) :
      Reachable valid s → remove_lease valid s id c = .ok (b, s') →
      Reachable valid s'
  | step_remove_subscription (s : ManagerState) (id : Nat)
      (b : Bool) (s' : ManagerState) :
      Reachable valid s → remove_subscription valid s id = .ok (b, s') →
      Reachable valid s'

/-! ### Association-list lemmas -/

theorem mapLookup_eq_none {α β : Type} [DecidableEq α] {l : List (α × β)} {k : α} :
    mapLookup l k = none ↔ ∀ p ∈ l, p.1 ≠ k := by
  induction l with
  | nil => simp [mapLookup]
  | cons p rest ih =>
    cases p with
    | mk k' v =>
      by_cases h : k' = k
      · subst h
        simp [mapLookup]
      · simp [mapLookup, h, ih]

theorem mapLookup_mem {α β : Type} [DecidableEq α] {l : List (α × β)} {k : α} {v : β}
    (h : mapLookup l k = some v) : (k, v) ∈ l := by
  induction l with
  | nil => simp [mapLookup] at h
  | cons p rest ih =>
    cases p with
    | mk k' v' =>
      by_cases hk : k' = k
      · subst hk
        simp [mapLookup] at h
        simp [h]
      · simp [mapLookup, hk] at h
        simp [ih h]

theorem mapInsert_of_none {α β : Type} [DecidableEq α] {l : List (α × β)} {k : α}
    (v : β) (h : mapLookup l k = none) : mapInsert l k v = (k, v) :: l := by
  simp [mapInsert, h]

theorem mapErase_of_none {α β : Type} [DecidableEq α] {l : List (α × β)} {k : α}
    (h : mapLookup l k = none) : mapErase l k = l := by
  rw [mapErase, List.filter_eq_self]
  intro p hp
  simpa using mapLookup_eq_none.mp h p hp

theorem mapErase_insert {α β : Type} [DecidableEq α] {l : List (α × β)} {k : α}
    (v : β) (h : mapLookup l k = none) : mapErase (mapInsert l k v) k = l := by
  rw [mapInsert_of_none v h, mapErase, List.filter_cons_of_neg (by simp)]
  exact mapErase_of_none h

theorem mem_mapErase {α β : Type} [DecidableEq α] {l : List (α × β)} {k : α}
    {p : α × β} (h : p ∈ mapErase l k) : p ∈ l ∧ p.1 ≠ k := by
  have := List.mem_filter.mp h
  exact ⟨this.1, by simpa using this.2⟩

theorem mapLookup_erase_ne {α β : Type} [DecidableEq α] {l : List (α × β)} {k j : α}
    (h : j ≠ k) : mapLookup (mapErase l k) j = mapLookup l j := by
  induction l with
  | nil => rfl
  | cons p rest ih =>
    cases p with
    | mk k' v' =>
      by_cases hk : k' = k <;> by_cases hj : k' = j <;>
        simp_all [mapErase, mapLookup, List.filter_cons]

theorem mapLookup_erase_self {α β : Type} [DecidableEq α] (l : List (α × β)) (k : α) :
    mapLookup (mapErase l k) k = none := by
  rw [mapLookup_eq_none]
  intro p hp
  exact (mem_mapErase hp).2

theorem mapLookup_updateHolders (l : List (Nat × SubInfo)) (id : Nat)
    (f : List String → List String) (j : Nat) :
    mapLookup (updateHolders l id f) j =
      (mapLookup l j).map
        (fun i => if j = id then { i with lease_holders := f i.lease_holders } else i) := by
  induction l with
  | nil => rfl
  | cons p rest ih =>
    cases p with
    | mk k i =>
      by_cases hid : k = id
      · subst hid
        by_cases hj : k = j
        · subst hj
          simp [updateHolders, mapLookup]
        · simpa [updateHolders, mapLookup, hj] using ih
      · by_cases hj : k = j
        · subst hj
          simp [updateHolders, mapLookup, hid, fun h : k = id => hid h]
        · simpa [updateHolders, mapLookup, hid, hj] using ih

theorem updateHolders_map {γ : Type} (l : List (Nat × SubInfo)) (id : Nat)
    (f : List String → List String) (F : Nat × SubInfo → γ)
    (hF : ∀ k i, F (k, { i with lease_holders := f i.lease_holders }) = F (k, i)) :
    (updateHolders l id f).map F = l.map F := by
  induction l with
  | nil => rfl
  | cons p rest ih =>
    cases p with
    | mk k i =>
      by_cases hid : k = id <;> simp [updateHolders, hid, hF, ih]

theorem updateHolders_all (l : List (Nat × SubInfo)) (id : Nat)
    (f : List String → List String) (P : Nat × SubInfo → Bool)
    (hP : ∀ k i, P (k, { i with lease_holders := f i.lease_holders }) = P (k, i)) :
    (updateHolders l id f).all P = l.all P := by
  induction l with
  | nil => rfl
  | cons p rest ih =>
    cases p with
    | mk k i =>
      by_cases hid : k = id <;> simp [updateHolders, hid, hP, ih]

theorem updateHolders_length (l : List (Nat × SubInfo)) (id : Nat)
    (f : List String → List String) :
    (updateHolders l id f).length = l.length := by
  induction l with
  | nil => rfl
  | cons p rest ih =>
    cases p with
    | mk k i =>
      by_cases hid : k = id <;> simp [updateHolders, hid, ih]

theorem buildSnapshot_updateHolders (s : ManagerState) (id : Nat)
    (f : List String → List String) :
    buildSnapshot { s with subscriptions := updateHolders s.subscriptions id f } =
      buildSnapshot s := by
  simp only [buildSnapshot]
  congr 1
  · exact updateHolders_map _ _ _ _ (fun k i => rfl)
  · exact updateHolders_map _ _ _ _ (fun k i => rfl)
  · exact updateHolders_length _ _ _

/-! ### The manager invariant -/

/-- Invariant of all reachable manager states: the writer maps are
well-formed and the published snapshot is exactly the one built from the
current writer state. -/
def Inv (valid : String → Bool) (s : ManagerState) : Prop :=
  WFb valid s = true ∧ s.snap = some (buildSnapshot s)

theorem wf_parts {valid : String → Bool} {s : ManagerState} (h : WFb valid s = true) :
    s.subscriptions.all (fun p => valid p.2.expression) = true ∧
    s.subscriptions.all (fun p => decide (p.1 < s.next_id)) = true ∧
    s.expr_to_id.all (fun q =>
      match mapLookup s.subscriptions q.2 with
      | some info => info.expression == q.1
      | none => false) = true := by
  rw [WFb, Bool.and_eq_true, Bool.and_eq_true] at h
  exact ⟨h.1.1, h.1.2, h.2⟩

theorem wf_next_fresh {valid : String → Bool} {s : ManagerState}
    (h : WFb valid s = true) :
    mapLookup s.subscriptions s.next_id = none := by
  rw [mapLookup_eq_none]
  intro p hp
  have := List.all_eq_true.mp (wf_parts h).2.1 p hp
  simp only [decide_eq_true_eq] at this
  omega

theorem wf_key_lt {valid : String → Bool} {s : ManagerState} {j : Nat} {v : SubInfo}
    (h : WFb valid s = true) (hl : mapLookup s.subscriptions j = some v) :
    j < s.next_id := by
  have := List.all_eq_true.mp (wf_parts h).2.1 (j, v) (mapLookup_mem hl)
  simpa using this

/-- An expression the engine rejects cannot be indexed in a well-formed
state. -/
theorem wf_invalid_not_indexed {valid : String → Bool} {s : ManagerState} {e : String}
    (h : WFb valid s = true) (hv : valid e = false) :
    mapLookup s.expr_to_id e = none := by
  cases hlk : mapLookup s.expr_to_id e with
  | none => rfl
  | some id =>
    exfalso
    have hq := List.all_eq_true.mp (wf_parts h).2.2 (e, id) (mapLookup_mem hlk)
    cases hml : mapLookup s.subscriptions id with
    | none => rw [hml] at hq; simp at hq
    | some info =>
      rw [hml] at hq
      have hexpr : info.expression = e := by simpa using hq
      have hv' := List.all_eq_true.mp (wf_parts h).1 (id, info) (mapLookup_mem hml)
      simp only [hexpr] at hv'
      rw [hv] at hv'
      exact Bool.false_ne_true hv'

/-- Rolling the tentative insertion back restores the pre-call state
exactly, provided the tentative id and expression were fresh. -/
theorem subRollback_subTentative {s : ManagerState} {e c : String}
    (hid : mapLookup s.subscriptions s.next_id = none)
    (he : mapLookup s.expr_to_id e = none) :
    subRollback (subTentative s e c) s.next_id e = s := by
  cases s with
  | mk attrs pfx nid ex subs sn =>
    simp only [subRollback, subTentative] at *
    rw [mapErase_insert _ hid, mapErase_insert _ he]
    simp

theorem inv_mkManager (valid : String → Bool) (attributes : List AttrDef)
    (pfx : String) : Inv valid (mkManager attributes pfx) := by
  constructor
  · rfl
  · rfl

/-- A lease-holder-only mutation preserves writer well-formedness. -/
theorem wf_updateHolders (valid : String → Bool) (s : ManagerState) (id : Nat)
    (f : List String → List String) (hwf : WFb valid s = true) :
    WFb valid { s with subscriptions := updateHolders s.subscriptions id f } = true := by
  obtain ⟨hval, hbound, hcons⟩ := wf_parts hwf
  rw [WFb, Bool.and_eq_true, Bool.and_eq_true]
  refine ⟨⟨?_, ?_⟩, ?_⟩
  · show (updateHolders s.subscriptions id f).all (fun p => valid p.2.expression) = true
    rw [updateHolders_all s.subscriptions id f (fun p => valid p.2.expression)
      (fun k i => rfl)]
    exact hval
  · show (updateHolders s.subscriptions id f).all (fun p => decide (p.1 < s.next_id)) = true
    rw [updateHolders_all s.subscriptions id f (fun p => decide (p.1 < s.next_id))
      (fun k i => rfl)]
    exact hbound
  · show s.expr_to_id.all _ = true
    rw [List.all_eq_true] at hcons ⊢
    intro q hq
    have hq' := hcons q hq
    show (match mapLookup (updateHolders s.subscriptions id f) q.2 with
          | some info => info.expression == q.1
          | none => false) = true
    rw [mapLookup_updateHolders]
    cases hml : mapLookup s.subscriptions q.2 with
    | none => rw [hml] at hq'; simp at hq'
    | some info =>
      rw [hml] at hq'
      by_cases hqid : q.2 = id <;> simpa [hqid] using hq'

/-- A lease-holder-only mutation does not change the snapshot a rebuild
would produce. -/
theorem buildSnapshot_updateHolders_congr (s t : ManagerState) (id : Nat)
    (f : List String → List String)
    (hsub : t.subscriptions = updateHolders s.subscriptions id f)
    (hpfx : t.output_pfx = s.output_pfx) :
    buildSnapshot t = buildSnapshot s := by
  simp only [buildSnapshot, hsub, hpfx]
  congr 1
  · exact updateHolders_map _ _ _ _ (fun k i => rfl)
  · exact updateHolders_map _ _ _ _ (fun k i => rfl)
  · exact updateHolders_length _ _ _

theorem inv_subscribe (valid : String → Bool) (s : ManagerState) (e c : String)
    (h : Inv valid s) : Inv valid (subscribe valid s e c).2 := by
  obtain ⟨hwf, hsnap⟩ := h
  obtain ⟨hval, hbound, hcons⟩ := wf_parts hwf
  cases hlk : mapLookup s.expr_to_id e with
  | some id =>
    simp only [subscribe, hlk]
    refine ⟨wf_updateHolders valid s id (setInsert c) hwf, ?_⟩
    show s.snap = _
    refine hsnap.trans ?_
    congr 1
    exact (buildSnapshot_updateHolders_congr s
      { s with subscriptions := updateHolders s.subscriptions id (setInsert c) }
      id (setInsert c) rfl rfl).symm
  | none =>
    cases hacc : treeAccepts valid (subTentative s e c) with
    | false =>
      have hpub : publish_snapshot valid (subTentative s e c) = .error () := by
        rw [publish_snapshot, if_neg]
        simp [hacc]
      simp only [subscribe, hlk, hpub]
      rw [subRollback_subTentative (wf_next_fresh hwf) hlk]
      exact ⟨hwf, hsnap⟩
    | true =>
      have hpub : publish_snapshot valid (subTentative s e c) =
          .ok { subTentative s e c with
                snap := some (buildSnapshot (subTentative s e c)) } := by
        rw [publish_snapshot, if_pos hacc]
      simp only [subscribe, hlk, hpub]
      have hfresh := wf_next_fresh hwf
      have hsubs1 : (subTentative s e c).subscriptions =
          (s.next_id, SubInfo.mk s.next_id e (setInsert c [])) :: s.subscriptions :=
        mapInsert_of_none _ hfresh
      have hexpr1 : (subTentative s e c).expr_to_id =
          (e, s.next_id) :: s.expr_to_id :=
        mapInsert_of_none _ hlk
      constructor
      · rw [WFb, Bool.and_eq_true, Bool.and_eq_true]
        refine ⟨⟨?_, ?_⟩, ?_⟩
        · exact hacc
        · show (subTentative s e c).subscriptions.all
            (fun p => decide (p.1 < (subTentative s e c).next_id)) = true
          rw [hsubs1, List.all_cons, Bool.and_eq_true]
          refine ⟨by simp [subTentative], ?_⟩
          rw [List.all_eq_true] at hbound ⊢
          intro p hp
          have hple := hbound p hp
          simp only [decide_eq_true_eq, subTentative] at hple ⊢
          omega
        · show (subTentative s e c).expr_to_id.all _ = true
          rw [hexpr1, List.all_cons, Bool.and_eq_true]
          refine ⟨?_, ?_⟩
          · show (match mapLookup (subTentative s e c).subscriptions s.next_id with
                  | some info => info.expression == e
                  | none => false) = true
            rw [hsubs1]
            simp [mapLookup]
          · rw [List.all_eq_true] at hcons ⊢
            intro q hq
            have hq' := hcons q hq
            cases hml : mapLookup s.subscriptions q.2 with
            | none => rw [hml] at hq'; simp at hq'
            | some info =>
              rw [hml] at hq'
              have hqlt : q.2 < s.next_id := wf_key_lt hwf hml
              show (match mapLookup (subTentative s e c).subscriptions q.2 with
                    | some i => i.expression == q.1
                    | none => false) = true
              rw [hsubs1]
              have hcons1 : mapLookup
                  ((s.next_id, SubInfo.mk s.next_id e (setInsert c [])) ::
                    s.subscriptions) q.2 = mapLookup s.subscriptions q.2 := by
                simp only [mapLookup]
                rw [if_neg (by omega)]
              rw [hcons1, hml]
              exact hq'
      · rfl

theorem inv_publish_remove (valid : String → Bool) (s : ManagerState)
    {id : Nat} {info : SubInfo}
    (hwf : WFb valid s = true) (hlk : mapLookup s.subscriptions id = some info) :
    treeAccepts valid (removeState s id info.expression) = true ∧
    Inv valid { removeState s id info.expression with
                snap := some (buildSnapshot (removeState s id info.expression)) } := by
  obtain ⟨hval, hbound, hcons⟩ := wf_parts hwf
  have hacc : treeAccepts valid (removeState s id info.expression) = true := by
    rw [treeAccepts, List.all_eq_true]
    intro p hp
    exact List.all_eq_true.mp hval p (mem_mapErase hp).1
  refine ⟨hacc, ?_, ?_⟩
  · rw [WFb, Bool.and_eq_true, Bool.and_eq_true]
    refine ⟨⟨hacc, ?_⟩, ?_⟩
    · rw [List.all_eq_true] at hbound ⊢
      intro p hp
      exact hbound p (mem_mapErase hp).1
    · rw [List.all_eq_true] at hcons ⊢
      intro q hq
      obtain ⟨hqmem, hqne⟩ := mem_mapErase (l := s.expr_to_id) hq
      have hq' := hcons q hqmem
      cases hml : mapLookup s.subscriptions q.2 with
      | none => rw [hml] at hq'; simp at hq'
      | some infoq =>
        rw [hml] at hq'
        have hqexpr : infoq.expression = q.1 := by simpa using hq'
        have hqid : q.2 ≠ id := by
          intro hh
          rw [hh, hlk] at hml
          cases hml
          exact hqne (hqexpr ▸ rfl)
        show (match mapLookup (mapErase s.subscriptions id) q.2 with
              | some i => i.expression == q.1
              | none => false) = true
        rw [mapLookup_erase_ne hqid, hml]
        exact hq'
  · rfl

theorem inv_remove_lease (valid : String → Bool) (s : ManagerState)
    (id : Nat) (c : String) (b : Bool) (s' : ManagerState)
    (h : Inv valid s) (heq : remove_lease valid s id c = .ok (b, s')) :
    Inv valid s' := by
  obtain ⟨hwf, hsnap⟩ := h
  cases hlk : mapLookup s.subscriptions id with
  | none =>
    simp only [remove_lease, hlk] at heq
    cases heq
    exact ⟨hwf, hsnap⟩
  | some info =>
    simp only [remove_lease, hlk] at heq
    by_cases hemp : (setErase c info.lease_holders).isEmpty
    · obtain ⟨hacc, hinv⟩ := inv_publish_remove valid s hwf hlk
      rw [if_pos hemp, publish_snapshot, if_pos hacc] at heq
      cases heq
      exact hinv
    · rw [if_neg hemp] at heq
      cases heq
      refine ⟨wf_updateHolders valid s id (setErase c) hwf, ?_⟩
      show s.snap = _
      refine hsnap.trans ?_
      congr 1
      exact (buildSnapshot_updateHolders_congr s
        { s with subscriptions := updateHolders s.subscriptions id (setErase c) }
        id (setErase c) rfl rfl).symm

theorem inv_remove_subscription (valid : String → Bool) (s : ManagerState)
    (id : Nat) (b : Bool) (s' : ManagerState)
    (h : Inv valid s) (heq : remove_subscription valid s id = .ok (b, s')) :
    Inv valid s' := by
  obtain ⟨hwf, hsnap⟩ := h
  cases hlk : mapLookup s.subscriptions id with
  | none =>
    simp only [remove_subscription, hlk] at heq
    cases heq
    exact ⟨hwf, hsnap⟩
  | some info =>
    obtain ⟨hacc, hinv⟩ := inv_publish_remove valid s hwf hlk
    simp only [remove_subscription, hlk, publish_snapshot, if_pos hacc] at heq
    cases heq
    exact hinv

/-- Every reachable manager state is well-formed and carries the snapshot
built from its own writer state. -/
theorem reachable_inv {valid : String → Bool} {s : ManagerState}
    (h : Reachable valid s) : Inv valid s := by
  induction h with
  | init attributes pfx => exact inv_mkManager valid attributes pfx
  | step_subscribe s e c _ ih => exact inv_subscribe valid s e c ih
  | step_remove_lease s id c b s' _ heq ih => exact inv_remove_lease valid s id c b s' ih heq
  | step_remove_subscription s id b s' _ heq ih =>
    exact inv_remove_subscription valid s id b s' ih heq

/-! ## Event bridge (event_bridge.{hpp,cpp})

The zerialize deserializers are external; a decoded node is a `Val`.  Float
payloads are opaque (`F64.ofBits`); only the classification and which
`EventBuilder` setter fires matter to the claims. -/

/-- A node exposed by a zerialize deserializer. -/
inductive Val where
  | vbool (b : Bool)
  | vint (n : Int)
  | vuint (n : Nat)
  | vfloat (bits : Nat)
  | vstring (s : String)
  | varr (xs : List Val)
  | vmap (kvs : List (String × Val))
  | vnull

/-- `static_cast<int64_t>` of a `uint64_t` (two's complement wrap). -/
def toSigned64 (n : Nat) : Int :=
  if n < 2 ^ 63 then (n : Int) else (n : Int) - 2 ^ 64

def Val.isBool : Val → Bool | .vbool _ => true | _ => false

def Val.isInt : Val → Bool | .vint _ => true | _ => false

def Val.isUInt : Val → Bool | .vuint _ => true | _ => false

def Val.isFloat : Val → Bool | .vfloat _ => true | _ => false

def Val.isString : Val → Bool | .vstring _ => true | _ => false

def Val.isArray : Val → Bool | .varr _ => true | _ => false

def Val.isMap : Val → Bool | .vmap _ => true | _ => false

/-- `asBool`; the default branch is never reached (guarded by `isBool`). -/
def Val.asBool : Val → Bool | .vbool b => b | _ => false

/-- `asInt64`; signed payloads are already `int64_t`, unsigned ones are cast.
The default branch is never reached (guarded by `isInt || isUInt`). -/
def Val.asInt64 : Val → Int
  | .vint n => n
  | .vuint n => toSigned64 n
  | _ => 0

/-- `asString` / `asStringView`; default never reached. -/
def Val.asString : Val → String | .vstring s => s | _ => ""

/-- Opaque `double`: either decoded float bits or an integer cast. -/
inductive F64 where
  | ofBits (bits : Nat)
  | ofInt64 (n : Int)
deriving DecidableEq, Repr

/-- `asDouble`; default never reached (guarded by `isFloat`). -/
def Val.asDouble : Val → F64 | .vfloat bits => F64.ofBits bits | _ => F64.ofBits 0

/-- Array elements, iterated as `value[0] .. value[arraySize()-1]`. -/
def Val.arrayElems : Val → List Val | .varr xs => xs | _ => []

/-- Map entries in the order `mapKeys()` exposes. -/
def Val.mapEntries : Val → List (String × Val) | .vmap kvs => kvs | _ => []

/-- One `EventBuilder` setter call. -/
inductive FieldAction where
  | setBool (k : String) (v : Bool)
  | setInt (k : String) (v : Int)
  | setFloat (k : String) (v : F64)
  | setString (k : String) (v : String)
  | setStringList (k : String) (v : List String)
  | setIntList (k : String) (v : List Int)
  | setUndefined (k : String)
deriving DecidableEq, Repr

def FieldAction.key : FieldAction → String
  | .setBool k _ => k
  | .setInt k _ => k
  | .setFloat k _ => k
  | .setString k _ => k
  | .setStringList k _ => k
  | .setIntList k _ => k
  | .setUndefined k => k

/-- `sidecar::attribute_schema`: precomputed name → type map built by
`types[d.name] = d.type` over the definitions. -/
def schemaOfDefs (defs : List AttrDef) : List (String × AttrType) :=
  defs.foldl (fun m d => mapInsert m d.name d.type) []

/-- The per-key `switch` of `populate_event` (event_bridge.hpp, 61-125):
extract one schema-known field from its present value. -/
def extractField (key : String) (t : AttrType) (v : Val) : FieldAction :=
  match t with
  | .boolean =>
      if v.isBool then .setBool key v.asBool else .setUndefined key
  | .integer =>
      if v.isInt || v.isUInt then .setInt key v.asInt64 else .setUndefined key
  | .float_val =>
      if v.isFloat then .setFloat key v.asDouble
      else if v.isInt || v.isUInt then .setFloat key (F64.ofInt64 v.asInt64)
      else .setUndefined key
  | .string =>
      if v.isString then .setString key v.asString else .setUndefined key
  | .string_list =>
      if v.isArray then
        .setStringList key
          (v.arrayElems.filterMap (fun e => if e.isString then some e.asString else none))
      else .setUndefined key
  | .integer_list =>
      if v.isArray then
        .setIntList key
          (v.arrayElems.filterMap (fun e =>
            if e.isInt || e.isUInt then some e.asInt64 else none))
      else .setUndefined key

/-- The key loop of `populate_event`: iterate `mapKeys()`, drop keys the
schema does not know, fetch `reader[key]` (a by-key lookup; `vnull` stands
for the unreachable missing-key default) and extract. -/
def populateActions (schema : List (String × AttrType))
    (kvs : List (String × Val)) : List FieldAction :=
  (kvs.map Prod.fst).filterMap (fun k =>
    match mapLookup schema k with
    | none => none
    | some t => some (extractField k t ((mapLookup kvs k).getD .vnull)))

/-- `populate_event`: `none` is the `return false` path taken when the root
is not a map. -/
def populate_event (schema : List (String × AttrType)) (root : Val) :
    Option (List FieldAction) :=
  if root.isMap then some (populateActions schema root.mapEntries) else none

/-- `match_message` (event_bridge.hpp, 136-155): populate, then
`tree.search`; a search exception (`Except.error`) becomes *no match*.
`search` abstracts the compiled tree's search on the built event. -/
def match_message (search : List FieldAction → Except Unit (List Nat))
    (schema : List (String × AttrType)) (root : Val) : Option (List Nat) :=
  match populate_event schema root with
  | none => none
  | some actions =>
      match search actions with
      | .ok ids => some ids
      | .error _ => none

/-- `deserialize_and_match` (event_bridge.cpp): decode the payload bytes
under the configured format (`decode` abstracts the chosen deserializer;
`none` is a decoder exception reaching the outer catch), then match. -/
def deserialize_and_match (decode : List Nat → Option Val)
    (search : List FieldAction → Except Unit (List Nat))
    (schema : List (String × AttrType)) (payload : List Nat) :
    Option (List Nat) :=
  match decode payload with
  | none => none
  | some root => match_message search schema root

/-! ## Worker loop step (worker_pool.cpp) -/

/-- The four relaxed atomic counters of `worker_pool`. -/
structure WorkerStats where
  processed : Nat
  matched : Nat
  published : Nat
  match_failures : Nat
deriving DecidableEq, Repr

/-- The publish work posted to the I/O thread: the moved match list, the
moved payload bytes, and the captured snapshot reference. -/
structure PublishTask where
  ids : List Nat
  payload : List Nat
  snap : TreeSnapshot
deriving DecidableEq, Repr

/-- One iteration of `worker_loop` after a successful non-empty dequeue
(worker_pool.cpp, 82-143): `none` is the discard-and-continue branch taken
when the loaded snapshot is absent; otherwise the updated counters and the
publish task (if any) handed to the I/O thread. -/
def worker_step (bridge : List Nat → Option (List Nat))
    (snap : Option TreeSnapshot) (st : WorkerStats) (payload : List Nat) :
    Option (WorkerStats × Option PublishTask) :=
  match snap with
  | none => none
  | some sn =>
      let ms := bridge payload
      let st1 := { st with processed := st.processed + 1 }
      some (match ms with
        | none => ({ st1 with match_failures := st.match_failures + 1 }, none)
        | some ids =>
            if ids.isEmpty then (st1, none)
            else ({ st1 with matched := st.matched + 1 },
                  some { ids := ids, payload := payload, snap := sn }))

/-- The publish coroutine body (worker_pool.cpp, 118-141): iterate the match
list in order, look each id up in the snapshot's precomputed subject map
(skipping absent ids), publish the unchanged payload bytes to each subject. -/
def run_publish_task (t : PublishTask) : List (String × List Nat) :=
  t.ids.filterMap (fun id =>
    match mapLookup t.snap.output_subjects id with
    | none => none
    | some subj => some (subj, t.payload))

/-! ## Claims about the subscription manager -/

/-- **C1.** `subscribe` is idempotent on the expression: starting from a
fresh manager, `subscribe(e, c1)` then `subscribe(e, c2)` return the same
id, `active_count` stays at `1`, the subscription's lease holders are
exactly `{c1, c2}`, and the second call publishes no new snapshot. -/
theorem claim_C1_subscribe_idempotent (valid : String → Bool)
    (attrs : List AttrDef) (pfx e c1 c2 : String) (hv : valid e = true) :
    ∃ (id : Nat) (s1 s2 : ManagerState),
      subscribe valid (mkManager attrs pfx) e c1 = (.ok id, s1) ∧
      subscribe valid s1 e c2 = (.ok id, s2) ∧
      active_count s2 = 1 ∧
      (∃ info, get_subscription s2 id = some info ∧
        ∀ x, x ∈ info.lease_holders ↔ (x = c1 ∨ x = c2)) ∧
      snapshot s2 = snapshot s1 := by
  have hlk0 : mapLookup (mkManager attrs pfx).expr_to_id e = none := rfl
  have hacc : treeAccepts valid (subTentative (mkManager attrs pfx) e c1) = true := by
    simp [treeAccepts, subTentative, mkManager, initialState, mapInsert, mapLookup, hv]
  have hpub : publish_snapshot valid (subTentative (mkManager attrs pfx) e c1) =
      .ok { subTentative (mkManager attrs pfx) e c1 with
            snap := some (buildSnapshot (subTentative (mkManager attrs pfx) e c1)) } := by
    rw [publish_snapshot, if_pos hacc]
  refine ⟨1,
    { subTentative (mkManager attrs pfx) e c1 with
      snap := some (buildSnapshot (subTentative (mkManager attrs pfx) e c1)) },
    { subTentative (mkManager attrs pfx) e c1 with
      snap := some (buildSnapshot (subTentative (mkManager attrs pfx) e c1)),
      subscriptions := updateHolders
        (subTentative (mkManager attrs pfx) e c1).subscriptions 1 (setInsert c2) },
    ?_, ?_, ?_, ?_, ?_⟩
  · simp only [subscribe, hlk0, hpub]
    rfl
  · have hlk1 : mapLookup ({ subTentative (mkManager attrs pfx) e c1 with
        snap := some (buildSnapshot (subTentative (mkManager attrs pfx) e c1)) }).expr_to_id
        e = some 1 := by
      simp [subTentative, mkManager, initialState, mapInsert, mapLookup]
    simp only [subscribe, hlk1]
  · rfl
  · refine ⟨_, rfl, ?_⟩
    intro x
    show x ∈ setInsert c2 (setInsert c1 []) ↔ _
    have h1 : setInsert c1 [] = [c1] := by simp [setInsert]
    rw [h1, setInsert]
    by_cases h2 : c2 ∈ [c1]
    · rw [if_pos h2]
      simp only [List.mem_singleton] at h2
      subst h2
      simp [or_self_iff]
    · rw [if_neg h2]
      simp [List.mem_cons, or_comm]
  · rfl

/-- Witness for C1 at a concrete input. -/
theorem claim_C1_subscribe_idempotent_witness :
    ∃ (id : Nat) (s1 s2 : ManagerState),
      subscribe (fun _ => true) (mkManager [] "out") "x > 1" "a" = (.ok id, s1) ∧
      subscribe (fun _ => true) s1 "x > 1" "b" = (.ok id, s2) ∧
      active_count s2 = 1 ∧
      (∃ info, get_subscription s2 id = some info ∧
        ∀ x, x ∈ info.lease_holders ↔ (x = "a" ∨ x = "b")) ∧
      snapshot s2 = snapshot s1 :=
  claim_C1_subscribe_idempotent (fun _ => true) [] "out" "x > 1" "a" "b" rfl

/-- **C2.** `subscribe` is atomic on failure: on a well-formed state, if the
engine rejects the expression, `subscribe` throws and the returned state is
exactly the pre-call state (maps, `next_id`, snapshot and all observables
included). -/
theorem claim_C2_subscribe_rollback (valid : String → Bool) (s : ManagerState)
    (e c : String) (hwf : WFb valid s = true) (hv : valid e = false) :
    subscribe valid s e c = (.error (), s) := by
  have hlk : mapLookup s.expr_to_id e = none := wf_invalid_not_indexed hwf hv
  have hacc : treeAccepts valid (subTentative s e c) = false := by
    rw [treeAccepts]
    rw [show (subTentative s e c).subscriptions =
        (s.next_id, SubInfo.mk s.next_id e (setInsert c [])) :: s.subscriptions from
      mapInsert_of_none _ (wf_next_fresh hwf)]
    rw [List.all_cons]
    simp [hv]
  have hpub : publish_snapshot valid (subTentative s e c) = .error () := by
    rw [publish_snapshot, if_neg]
    simp [hacc]
  simp only [subscribe, hlk, hpub]
  rw [subRollback_subTentative (wf_next_fresh hwf) hlk]

/-- Witness for C2 at a concrete input. -/
theorem claim_C2_subscribe_rollback_witness :
    subscribe (fun x => x != "bad") (mkManager [] "out") "bad" "c" =
      (.error (), mkManager [] "out") :=
  claim_C2_subscribe_rollback (fun x => x != "bad") (mkManager [] "out")
    "bad" "c" (by decide) (by decide)

/-- **C3.** `remove_lease` returns `true` iff the subscription exists and
loses its last holder, in which case it is deleted and a fresh snapshot is
published; a missing id leaves the state untouched, and any `false` return
publishes no snapshot. -/
theorem claim_C3_remove_lease (valid : String → Bool) (s : ManagerState)
    (id : Nat) (c : String) (hwf : WFb valid s = true) :
    ∃ (b : Bool) (s' : ManagerState),
      remove_lease valid s id c = .ok (b, s') ∧
      (b = true ↔ ∃ info, get_subscription s id = some info ∧
        setErase c info.lease_holders = []) ∧
      (get_subscription s id = none → s' = s) ∧
      (b = false → snapshot s' = snapshot s) ∧
      (b = true → get_subscription s' id = none ∧
        snapshot s' = some (buildSnapshot s')) := by
  cases hlk : mapLookup s.subscriptions id with
  | none =>
    refine ⟨false, s, ?_, ?_, ?_, ?_, ?_⟩
    · simp only [remove_lease, hlk]
    · constructor
      · intro h; cases h
      · rintro ⟨info, hinfo, -⟩
        rw [get_subscription, hlk] at hinfo
        cases hinfo
    · intro _; rfl
    · intro _; rfl
    · intro h; cases h
  | some info =>
    by_cases hemp : (setErase c info.lease_holders).isEmpty
    · have hacc := (inv_publish_remove valid s hwf hlk).1
      refine ⟨true, { removeState s id info.expression with
          snap := some (buildSnapshot (removeState s id info.expression)) },
          ?_, ?_, ?_, ?_, ?_⟩
      · simp only [remove_lease, hlk, if_pos hemp, publish_snapshot, if_pos hacc]
      · constructor
        · intro _
          refine ⟨info, by rw [get_subscription, hlk], ?_⟩
          rwa [List.isEmpty_iff] at hemp
        · intro _; rfl
      · intro h
        rw [get_subscription, hlk] at h
        cases h
      · intro h; cases h
      · intro _
        refine ⟨?_, rfl⟩
        show mapLookup (mapErase s.subscriptions id) id = none
        exact mapLookup_erase_self _ _
    · refine ⟨false,
        { s with subscriptions := updateHolders s.subscriptions id (setErase c) },
        ?_, ?_, ?_, ?_, ?_⟩
      · simp only [remove_lease, hlk, if_neg hemp]
      · constructor
        · intro h; cases h
        · rintro ⟨info', hinfo', hzero⟩
          rw [get_subscription, hlk] at hinfo'
          cases hinfo'
          rw [← List.isEmpty_iff] at hzero
          exact absurd hzero hemp
      · intro h
        rw [get_subscription, hlk] at h
        cases h
      · intro _; rfl
      · intro h; cases h

/-- Witness for C3 at a concrete input. -/
theorem claim_C3_remove_lease_witness :
    ∃ (b : Bool) (s' : ManagerState),
      remove_lease (fun _ => true) (mkManager [] "o") 7 "c" = .ok (b, s') ∧
      (b = true ↔ ∃ info, get_subscription (mkManager [] "o") 7 = some info ∧
        setErase "c" info.lease_holders = []) ∧
      (get_subscription (mkManager [] "o") 7 = none → s' = mkManager [] "o") ∧
      (b = false → snapshot s' = snapshot (mkManager [] "o")) ∧
      (b = true → get_subscription s' 7 = none ∧
        snapshot s' = some (buildSnapshot s')) :=
  claim_C3_remove_lease (fun _ => true) (mkManager [] "o") 7 "c" (by decide)

/-- **C4.** Every published snapshot reflects the writer state at its
publication: its subject map lists exactly the current ids with subjects
`output_prefix + "." + decimal(id)`, its tree contains exactly the current
`(id, expression)` pairs, and its active count is the number of current
subscriptions — after construction and after every operation. -/
theorem claim_C4_snapshot_reflects (valid : String → Bool) (s : ManagerState)
    (h : Reachable valid s) :
    ∃ sn, snapshot s = some sn ∧
      sn.active_count = s.subscriptions.length ∧
      sn.treeInserts = s.subscriptions.map (fun p => (p.1, p.2.expression)) ∧
      sn.output_subjects =
        s.subscriptions.map (fun p => (p.1, output_subject s.output_pfx p.1)) := by
  obtain ⟨-, hsnap⟩ := reachable_inv h
  exact ⟨buildSnapshot s, hsnap, rfl, rfl, rfl⟩

/-- Witness for C4: the freshly constructed manager. -/
theorem claim_C4_snapshot_reflects_witness :
    ∃ sn, snapshot (mkManager [] "out") = some sn ∧
      sn.active_count = (mkManager [] "out").subscriptions.length ∧
      sn.treeInserts =
        (mkManager [] "out").subscriptions.map (fun p => (p.1, p.2.expression)) ∧
      sn.output_subjects = (mkManager [] "out").subscriptions.map
        (fun p => (p.1, output_subject (mkManager [] "out").output_pfx p.1)) :=
  claim_C4_snapshot_reflects (fun _ => true) (mkManager [] "out")
    (Reachable.init [] "out")

/-- **C10.** The snapshot slot is never null after construction: the
constructor publishes an empty snapshot (`active_count = 0`, no output
subjects, no tree insertions), every reachable state holds a snapshot, and
the worker loop's absent-snapshot branch can never be taken on a reachable
state. -/
theorem claim_C10_snapshot_never_null :
    (∀ (attrs : List AttrDef) (pfx : String),
        snapshot (mkManager attrs pfx) =
          some { treeInserts := [], output_subjects := [], active_count := 0 }) ∧
    (∀ (valid : String → Bool) (s : ManagerState), Reachable valid s →
        (snapshot s).isSome = true) ∧
    (∀ (valid : String → Bool) (s : ManagerState)
        (bridge : List Nat → Option (List Nat)) (st : WorkerStats)
        (payload : List Nat), Reachable valid s →
        worker_step bridge (snapshot s) st payload ≠ none) := by
  refine ⟨fun attrs pfx => rfl, ?_, ?_⟩
  · intro valid s h
    rw [snapshot, (reachable_inv h).2]
    rfl
  · intro valid s bridge st payload h
    rw [snapshot, (reachable_inv h).2]
    simp [worker_step]

/-- Witness for C10 at the freshly constructed manager. -/
theorem claim_C10_snapshot_never_null_witness :
    (snapshot (mkManager [] "p")).isSome = true ∧
    worker_step (fun _ => none) (snapshot (mkManager [] "p"))
      { processed := 0, matched := 0, published := 0, match_failures := 0 }
      [] ≠ none :=
  ⟨claim_C10_snapshot_never_null.2.1 (fun _ => true) (mkManager [] "p")
      (Reachable.init [] "p"),
   claim_C10_snapshot_never_null.2.2 (fun _ => true) (mkManager [] "p")
      (fun _ => none)
      { processed := 0, matched := 0, published := 0, match_failures := 0 }
      [] (Reachable.init [] "p")⟩

/-! ## Claims about the event bridge -/

/-- The per-element string extraction of the StringList case, as the
specification words it: take only string elements, skip the rest. -/
def stringElemSpec : Val → Option String
  | .vstring s => some s
  | _ => none

/-- The per-element integer extraction of the IntegerList case, as the
specification words it: take only (signed or unsigned) integer elements. -/
def intElemSpec : Val → Option Int
  | .vint n => some n
  | .vuint n => some (toSigned64 n)
  | _ => none

/-- The coercion table exactly as the specification words it (C5): one
clause per declared type and accepted value shape, everything else
undefined.  To be compared against `extractField`, which transliterates the
source's classifier-driven `switch`. -/
def extractFieldSpec (key : String) (t : AttrType) (v : Val) : FieldAction :=
  match t, v with
  | .boolean, .vbool b => .setBool key b
  | .integer, .vint n => .setInt key n
  | .integer, .vuint n => .setInt key (toSigned64 n)
  | .float_val, .vfloat bits => .setFloat key (F64.ofBits bits)
  | .float_val, .vint n => .setFloat key (F64.ofInt64 n)
  | .float_val, .vuint n => .setFloat key (F64.ofInt64 (toSigned64 n))
  | .string, .vstring str => .setString key str
  | .string_list, .varr xs => .setStringList key (xs.filterMap stringElemSpec)
  | .integer_list, .varr xs => .setIntList key (xs.filterMap intElemSpec)
  | _, _ => .setUndefined key

theorem stringElem_eq (e : Val) :
    (if e.isString then some e.asString else none) = stringElemSpec e := by
  cases e <;> rfl

theorem intElem_eq (e : Val) :
    (if e.isInt || e.isUInt then some e.asInt64 else none) = intElemSpec e := by
  cases e <;> rfl

theorem extractField_eq_spec (key : String) (t : AttrType) (v : Val) :
    extractField key t v = extractFieldSpec key t v := by
  have hs : (fun e : Val => if e.isString then some e.asString else none) =
      stringElemSpec := funext stringElem_eq
  have hi : (fun e : Val => if e.isInt || e.isUInt then some e.asInt64 else none) =
      intElemSpec := funext intElem_eq
  cases t <;> cases v <;>
    first
      | rfl
      | (show FieldAction.setStringList _ _ = _
         rw [hs]
         rfl)
      | (show FieldAction.setIntList _ _ = _
         rw [hi]
         rfl)

theorem extractField_key (key : String) (t : AttrType) (v : Val) :
    (extractField key t v).key = key := by
  rw [extractField_eq_spec]
  cases t <;> cases v <;> rfl

/-- **C5.** Per-key population: the source's extraction agrees with the
specification's coercion table on every key, declared type and present
value (unknown keys dropped, ill-shaped values explicitly undefined), and a
schema key absent from the payload map produces no builder call at all. -/
theorem claim_C5_populate_rules :
    (∀ (key : String) (t : AttrType) (v : Val),
        extractField key t v = extractFieldSpec key t v) ∧
    (∀ (schema : List (String × AttrType)) (kvs : List (String × Val)),
        populate_event schema (Val.vmap kvs) =
          some ((kvs.map Prod.fst).filterMap (fun k =>
            (mapLookup schema k).map
              (fun t => extractFieldSpec k t ((mapLookup kvs k).getD .vnull))))) ∧
    (∀ (schema : List (String × AttrType)) (kvs : List (String × Val))
        (k : String), k ∉ kvs.map Prod.fst →
        ∀ a ∈ populateActions schema kvs, FieldAction.key a ≠ k) := by
  refine ⟨extractField_eq_spec, ?_, ?_⟩
  · intro schema kvs
    show some (populateActions schema kvs) = _
    congr 1
    rw [populateActions]
    congr 1
    funext k
    cases mapLookup schema k with
    | none => rfl
    | some t => simp [extractField_eq_spec]
  · intro schema kvs k hk a ha
    obtain ⟨k', hk', hfa⟩ := List.mem_filterMap.mp ha
    cases hml : mapLookup schema k' with
    | none => rw [hml] at hfa; cases hfa
    | some t =>
      rw [hml] at hfa
      cases hfa
      rw [extractField_key]
      intro hh
      exact hk (hh ▸ hk')

/-- Witness for C5 at a concrete schema and payload. -/
theorem claim_C5_populate_rules_witness :
    FieldAction.key (FieldAction.setBool "b" true) ≠ "zzz" :=
  claim_C5_populate_rules.2.2 [("b", AttrType.boolean)]
    [("b", Val.vbool true)] "zzz" (by decide)
    (FieldAction.setBool "b" true) (by decide)

theorem isMap_eq_true_iff (v : Val) : v.isMap = true ↔ ∃ kvs, v = Val.vmap kvs := by
  cases v <;> simp [Val.isMap]

/-- **C6.** `deserialize_and_match` yields *no match* in exactly three
cases — decoder failure, non-map root, or a `search` exception — and in all
other cases the (possibly empty) list returned by `tree.search` on the
populated event. -/
theorem claim_C6_no_match_cases (decode : List Nat → Option Val)
    (search : List FieldAction → Except Unit (List Nat))
    (schema : List (String × AttrType)) (payload : List Nat) :
    (deserialize_and_match decode search schema payload = none ↔
      decode payload = none ∨
      (∃ root, decode payload = some root ∧ root.isMap = false) ∨
      (∃ kvs, decode payload = some (Val.vmap kvs) ∧
        search (populateActions schema kvs) = .error ())) ∧
    (∀ kvs ids, decode payload = some (Val.vmap kvs) →
      search (populateActions schema kvs) = .ok ids →
      deserialize_and_match decode search schema payload = some ids) := by
  cases hdec : decode payload with
  | none =>
    constructor
    · constructor
      · intro _
        exact Or.inl rfl
      · intro _
        simp [deserialize_and_match, hdec]
    · intro kvs ids hk _
      cases hk
  | some root =>
    by_cases hmap : root.isMap = true
    · obtain ⟨kvs, rfl⟩ := (isMap_eq_true_iff root).mp hmap
      cases hs : search (populateActions schema kvs) with
      | ok ids =>
        have hres : deserialize_and_match decode search schema payload = some ids := by
          simp [deserialize_and_match, hdec, match_message, populate_event,
            Val.isMap, Val.mapEntries, hs]
        constructor
        · rw [hres]
          constructor
          · intro h; cases h
          · rintro (h | ⟨root', hr, hm⟩ | ⟨kvs', hk, hserr⟩)
            · cases h
            · cases hr
              simp [Val.isMap] at hm
            · cases hk
              rw [hs] at hserr
              cases hserr
        · intro kvs' ids' hk hs'
          cases hk
          rw [hs] at hs'
          cases hs'
          exact hres
      | error u =>
        cases u
        have hres : deserialize_and_match decode search schema payload = none := by
          simp [deserialize_and_match, hdec, match_message, populate_event,
            Val.isMap, Val.mapEntries, hs]
        constructor
        · rw [hres]
          constructor
          · intro _
            exact Or.inr (Or.inr ⟨kvs, rfl, hs⟩)
          · intro _; rfl
        · intro kvs' ids' hk hs'
          cases hk
          rw [hs] at hs'
          cases hs'
    · have hmapf : root.isMap = false := by
        cases hb : root.isMap
        · rfl
        · exact absurd hb hmap
      have hres : deserialize_and_match decode search schema payload = none := by
        simp [deserialize_and_match, hdec, match_message, populate_event, hmapf]
      constructor
      · rw [hres]
        constructor
        · intro _
          exact Or.inr (Or.inl ⟨root, rfl, hmapf⟩)
        · intro _; rfl
      · intro kvs ids hk _
        cases hk
        exact absurd rfl hmap

/-- Witness for C6 at concrete decoder and search functions. -/
theorem claim_C6_no_match_cases_witness :
    deserialize_and_match (fun _ => some (Val.vmap []))
      (fun _ => .ok [3]) [] [] = some [3] :=
  (claim_C6_no_match_cases (fun _ => some (Val.vmap []))
    (fun _ => .ok [3]) [] []).2 [] [3] rfl rfl

/-! ## Claim about the worker loop -/

/-- **C8.** For every non-empty payload dequeued with a snapshot present:
`processed` rises by exactly one; `match_failures` rises by one iff the
bridge reports *no match*; `matched` rises by one and a publish task is
handed to the I/O thread iff the match list is non-empty; an empty match
list changes nothing else and hands nothing off; and the handed-off task
publishes in match-list order with the original payload bytes unchanged. -/
theorem claim_C8_worker_step (bridge : List Nat → Option (List Nat))
    (sn : TreeSnapshot) (st : WorkerStats) (payload : List Nat) :
    ∃ st' task, worker_step bridge (some sn) st payload = some (st', task) ∧
      st'.processed = st.processed + 1 ∧
      st'.published = st.published ∧
      (st'.match_failures = st.match_failures + 1 ↔ bridge payload = none) ∧
      ((st'.matched = st.matched + 1 ∧ task ≠ none) ↔
        ∃ ids, bridge payload = some ids ∧ ids ≠ []) ∧
      (bridge payload = some [] →
        st'.matched = st.matched ∧ st'.match_failures = st.match_failures ∧
        task = none) ∧
      (∀ t, task = some t → t.payload = payload ∧ bridge payload = some t.ids ∧
        run_publish_task t =
          (t.ids.filterMap (fun id => mapLookup sn.output_subjects id)).map
            (fun subj => (subj, payload))) := by
  cases hbr : bridge payload with
  | none =>
    refine ⟨{ processed := st.processed + 1, matched := st.matched,
              published := st.published,
              match_failures := st.match_failures + 1 },
      none, ?_, rfl, rfl, ?_, ?_, ?_, ?_⟩
    · simp [worker_step, hbr]
    · simp
    · constructor
      · rintro ⟨-, h⟩
        exact absurd rfl h
      · rintro ⟨ids, hids, -⟩
        cases hids
    · intro h
      cases h
    · intro t h
      cases h
  | some ids =>
    cases hids : ids.isEmpty
    · -- non-empty match list
      refine ⟨{ processed := st.processed + 1, matched := st.matched + 1,
                published := st.published,
                match_failures := st.match_failures },
        some { ids := ids, payload := payload, snap := sn },
        ?_, rfl, rfl, ?_, ?_, ?_, ?_⟩
      · simp [worker_step, hbr, hids]
      · constructor
        · intro h
          simp at h
        · intro h
          cases h
      · constructor
        · intro _
          exact ⟨ids, rfl, by simpa [List.isEmpty_iff] using hids⟩
        · intro _
          exact ⟨rfl, by simp⟩
      · intro h
        cases h
        simp at hids
      · intro t h
        cases h
        refine ⟨rfl, rfl, ?_⟩
        rw [run_publish_task]
        rw [show (fun id => match mapLookup sn.output_subjects id with
              | none => none
              | some subj => some (subj, payload)) =
            (fun id => (mapLookup sn.output_subjects id).map
              (fun subj => (subj, payload))) from funext (fun id => by
                cases mapLookup sn.output_subjects id <;> rfl)]
        rw [← List.map_filterMap]
    · -- empty match list
      have hids' : ids = [] := by simpa [List.isEmpty_iff] using hids
      subst hids'
      refine ⟨{ processed := st.processed + 1, matched := st.matched,
                published := st.published,
                match_failures := st.match_failures },
        none, ?_, rfl, rfl, ?_, ?_, ?_, ?_⟩
      · simp [worker_step, hbr]
      · constructor
        · intro h
          simp at h
        · intro h
          cases h
      · constructor
        · rintro ⟨-, h⟩
          exact absurd rfl h
        · rintro ⟨ids', hids', hne⟩
          cases hids'
          exact absurd rfl hne
      · intro _
        exact ⟨rfl, rfl, rfl⟩
      · intro t h
        cases h

/-- Witness for C8 at a concrete bridge, snapshot and payload. -/
theorem claim_C8_worker_step_witness :
    ∃ st' task,
      worker_step (fun _ => some [1])
        (some { treeInserts := [(1, "x")], output_subjects := [(1, "o.1")],
                active_count := 1 })
        { processed := 0, matched := 0, published := 0, match_failures := 0 }
        [7] = some (st', task) ∧
      st'.processed = 0 + 1 ∧
      st'.published = 0 ∧
      (st'.match_failures = 0 + 1 ↔ (fun _ : List Nat => some [1]) [7] = none) ∧
      ((st'.matched = 0 + 1 ∧ task ≠ none) ↔
        ∃ ids, (fun _ : List Nat => some [1]) [7] = some ids ∧ ids ≠ []) ∧
      ((fun _ : List Nat => some [1]) [7] = some [] →
        st'.matched = 0 ∧ st'.match_failures = 0 ∧ task = none) ∧
      (∀ t, task = some t → t.payload = [7] ∧
        (fun _ : List Nat => some [1]) [7] = some t.ids ∧
        run_publish_task t =
          (t.ids.filterMap (fun id => mapLookup
            ({ treeInserts := [(1, "x")], output_subjects := [(1, "o.1")],
               active_count := 1 } : TreeSnapshot).output_subjects id)).map
            (fun subj => (subj, [7]))) :=
  claim_C8_worker_step (fun _ => some [1])
    { treeInserts := [(1, "x")], output_subjects := [(1, "o.1")], active_count := 1 }
    { processed := 0, matched := 0, published := 0, match_failures := 0 } [7]

end NatsSidecar
